import Mathlib

/-!
Verification of the admission-control core of a quota-constrained API client
(sliding-window quota tracker, throttle queue, per-endpoint cost model,
quota-failure classifier, paginated fetch loops).

The definitions below are shallow embeddings of the TypeScript sources:
* `QuotaTracker` ← src/services/youtube/quotaTracker.ts
* `ThrottleQueue` ← src/services/youtube/throttleQueue.ts (+ src/config/throttle.ts)
* `quotaCosts` ← src/services/youtube/quotaCosts.ts
* `quotaError` ← src/services/youtube/quotaError.ts
* `playlistItems` ← src/services/youtube/playlistItems.ts

JavaScript numbers that only ever hold integral values (timestamps in whole
seconds, quota points, millisecond waits, HTTP statuses) are modelled as `Int`;
the one genuinely fractional computation (`calculateWait`) is modelled over `ℚ`.
-/

set_option autoImplicit false

namespace YPE

/-! ### Quota tracker (quotaTracker.ts)

`QuotaTracker.quotaBySecond` is a JavaScript `Map<number, number>`: keys are
whole-second timestamps, values are points consumed in that second.  A JS `Map`
keeps insertion order; `set` on an existing key updates the value in place,
`set` on a fresh key appends.  We model it as an association list with the same
update discipline.  `getCurrentSecond()` (`Math.floor(Date.now() / 1000)`) is
the extracted time source; every operation below takes it as the explicit
argument `now`. -/

/-- The `quotaBySecond` map: insertion-ordered (second, points) entries. -/
abbrev QuotaMap : Type := List (Int × Int)

namespace QuotaTracker

/-- `record(points)`: `this.quotaBySecond.set(now, (this.quotaBySecond.get(now) ?? 0) + points)`.
`Map.set` updates an existing key in place (first occurrence; keys are unique
by construction) and appends a fresh key at the end. -/
def record : QuotaMap → Int → Int → QuotaMap
  | [], now, p => [(now, p)]
  | (t, v) :: rest, now, p =>
    if t = now then (t, v + p) :: rest else (t, v) :: record rest now p

/-- `purgeExpired()`: deletes every entry with `timestamp <= cutoff` where
`cutoff = getCurrentSecond() - 60`. -/
def purgeExpired (m : QuotaMap) (now : Int) : QuotaMap :=
  m.filter (fun kv => decide (now - 60 < kv.1))

/-- `countLast60Seconds()`: sums entries with `timestamp > cutoff`
(`cutoff = now - 60`), then opportunistically purges; returns the total
together with the post-purge map. -/
def countLast60Seconds (m : QuotaMap) (now : Int) : Int × QuotaMap :=
  (((m.filter (fun kv => decide (now - 60 < kv.1))).map (fun kv => kv.2)).sum,
    purgeExpired m now)

/-- Points visible through a 60-second window ending at `now`: the sum the
`for` loop of `countLast60Seconds` accumulates. -/
def windowSum (m : QuotaMap) (now : Int) : Int :=
  ((m.filter (fun kv => decide (now - 60 < kv.1))).map (fun kv => kv.2)).sum

theorem countLast60Seconds_fst (m : QuotaMap) (now : Int) :
    (countLast60Seconds m now).1 = windowSum m now := rfl

theorem windowSum_cons (t v now : Int) (l : QuotaMap) :
    windowSum ((t, v) :: l) now =
      (if now - 60 < t then v else 0) + windowSum l now := by
  by_cases h : now - 60 < t <;> simp [windowSum, h]

theorem windowSum_record (m : QuotaMap) (s p now : Int) :
    windowSum (record m s p) now =
      windowSum m now + (if now - 60 < s then p else 0) := by
  induction m with
  | nil =>
    by_cases h : now - 60 < s <;>
      simp [record, windowSum, h]
  | cons kv rest ih =>
    obtain ⟨t, v⟩ := kv
    by_cases ht : t = s
    · subst ht
      have hr : record ((t, v) :: rest) t p = (t, v + p) :: rest := by
        simp [record]
      rw [hr, windowSum_cons, windowSum_cons]
      by_cases h : now - 60 < t <;> simp [h] <;> ring
    · simp only [record, if_neg ht, windowSum_cons, ih]
      ring

/-- Keys of the map. -/
def keysOf (m : QuotaMap) : List Int := m.map (fun kv => kv.1)

theorem keysOf_record_subset (m : QuotaMap) (s p : Int) :
    ∀ k, k ∈ keysOf (record m s p) → k ∈ keysOf m ∨ k = s := by
  induction m with
  | nil => intro k hk; simp [record, keysOf] at hk; simp [hk]
  | cons kv rest ih =>
    obtain ⟨t, v⟩ := kv
    intro k hk
    by_cases ht : t = s
    · subst ht
      simp [record, keysOf] at hk
      rcases hk with h | h
      · simp [keysOf, h]
      · left; simp [keysOf]; right; simpa [keysOf] using h
    · simp only [record, if_neg ht, keysOf, List.map_cons, List.mem_cons] at hk
      rcases hk with h | h
      · left; simp [keysOf, h]
      · rcases ih k h with h2 | h2
        · left; simp [keysOf] at h2 ⊢; tauto
        · right; exact h2

theorem keysOf_record_nodup (m : QuotaMap) (s p : Int)
    (hm : (keysOf m).Nodup) : (keysOf (record m s p)).Nodup := by
  induction m with
  | nil => simp [record, keysOf]
  | cons kv rest ih =>
    obtain ⟨t, v⟩ := kv
    simp only [keysOf, List.map_cons, List.nodup_cons] at hm
    by_cases ht : t = s
    · subst ht
      simpa [record, keysOf, List.nodup_cons] using hm
    · have h1 : (keysOf (record rest s p)).Nodup := ih hm.2
      have h2 : t ∉ keysOf (record rest s p) := by
        intro hk
        rcases keysOf_record_subset rest s p t hk with h | h
        · exact hm.1 (by simpa [keysOf] using h)
        · exact ht h
      simp only [record, if_neg ht, keysOf, List.map_cons, List.nodup_cons]
      exact ⟨by simpa [keysOf] using h2, by simpa [keysOf] using h1⟩

/-- Replaying a sequence of `record` calls: each call is a pair
(second at call time, points). -/
def replay (calls : List (Int × Int)) : QuotaMap :=
  calls.foldl (fun m c => record m c.1 c.2) []

theorem windowSum_foldl (calls : List (Int × Int)) (now : Int) :
    ∀ m : QuotaMap,
      windowSum (calls.foldl (fun m c => record m c.1 c.2) m) now =
        windowSum m now +
          ((calls.filter (fun c => decide (now - 60 < c.1))).map
            (fun c => c.2)).sum := by
  induction calls with
  | nil => intro m; simp
  | cons c rest ih =>
    intro m
    simp only [List.foldl_cons]
    rw [ih (record m c.1 c.2), windowSum_record]
    by_cases h : now - 60 < c.1 <;> simp [h] <;> ring

theorem keysOf_foldl_nodup (calls : List (Int × Int)) :
    ∀ m : QuotaMap, (keysOf m).Nodup →
      (keysOf (calls.foldl (fun m c => record m c.1 c.2) m)).Nodup := by
  induction calls with
  | nil => intro m hm; simpa using hm
  | cons c rest ih =>
    intro m hm
    exact ih _ (keysOf_record_nodup m c.1 c.2 hm)

end QuotaTracker

/-! ### Throttle configuration (config/throttle.ts)

`parseInt(import.meta.env.VITE_THROTTLE_THRESHOLD ?? '30', 10)` with the
environment variables unset: the defaults `'30'` and `'90'` apply. -/

def THROTTLE_THRESHOLD : Int := 30

def MAX_QUOTA_PER_MINUTE : Int := 90

def RESERVE_QUOTA : Int := MAX_QUOTA_PER_MINUTE - THROTTLE_THRESHOLD

/-- `MAX_WAIT_MS` from throttleQueue.ts. -/
def MAX_WAIT_MS : Int := 1000

/-- JavaScript `Math.round`: round half toward positive infinity. -/
def jsRound (q : ℚ) : Int := ⌊q + 1 / 2⌋

/-! ### ThrottleQueue.calculateWait (throttleQueue.ts)

```
const consumed = this.tracker.countLast60Seconds();
const afterRequest = consumed + quotaCost;
if (afterRequest <= THROTTLE_THRESHOLD) return 0;
const u = Math.min(1, (afterRequest - THROTTLE_THRESHOLD) / RESERVE_QUOTA);
const waitMs = Math.pow(u, 2) * MAX_WAIT_MS;
return Math.min(MAX_WAIT_MS, Math.round(waitMs));
```
`calculateWait` below is the exact-rational reading of this formula (what the
spec's formula denotes over the reals); the program actually evaluates it in
binary64 floating point, which `calculateWait64` further below models
operation for operation.  The two agree at every input except the
representation ties `afterRequest − 30 ∈ {21, 51}` (see
`throttle_wait_tie_counterexample`). -/

def calculateWait (consumed quotaCost : Int) : Int :=
  let afterRequest := consumed + quotaCost
  if afterRequest ≤ THROTTLE_THRESHOLD then 0
  else
    let u : ℚ :=
      min 1 (((afterRequest - THROTTLE_THRESHOLD : Int) : ℚ) / ((RESERVE_QUOTA : Int) : ℚ))
    min MAX_WAIT_MS (jsRound (u ^ 2 * ((MAX_WAIT_MS : Int) : ℚ)))

/-! ### Quota cost model (quotaCosts.ts) -/

/-- JavaScript `String.prototype.includes`: substring containment. -/
def jsIncludes (s pat : String) : Bool := decide (pat.toList <:+: s.toList)

/-- The `QUOTA_COSTS` record. -/
structure QuotaCostTable where
  PLAYLISTS_LIST : Int
  PLAYLIST_ITEMS_LIST : Int
  CHANNELS_LIST : Int
  SEARCH_LIST : Int

def QUOTA_COSTS : QuotaCostTable :=
  { PLAYLISTS_LIST := 1
    PLAYLIST_ITEMS_LIST := 1
    CHANNELS_LIST := 1
    SEARCH_LIST := 100 }

def DEFAULT_QUOTA_COST : Int := 1

/-- `getQuotaCost(path)`: branch-for-branch translation of the source. -/
def getQuotaCost (path : String) : Int :=
  if jsIncludes path "/playlists" && !(jsIncludes path "/playlistItems") then
    QUOTA_COSTS.PLAYLISTS_LIST
  else if jsIncludes path "/playlistItems" then
    QUOTA_COSTS.PLAYLIST_ITEMS_LIST
  else if jsIncludes path "/channels" then
    QUOTA_COSTS.CHANNELS_LIST
  else if jsIncludes path "/search" then
    QUOTA_COSTS.SEARCH_LIST
  else
    DEFAULT_QUOTA_COST

end YPE

namespace YPE

/-- The exact-rational reading of the backoff formula: wait 0 when
`w + c ≤ threshold` (= 30), and otherwise
`min(maxWaitMs, round((min(1, (w + c - threshold) / reserve))² × maxWaitMs))`
with `reserve = 60` and `maxWaitMs = 1000`.  This is the formula the claim
states; the program's binary64 evaluation (`calculateWait64` below) agrees
with it except at the two representation ties `w + c ∈ {51, 81}`. -/
theorem throttle_wait_formula (w c : Int) :
    (w + c ≤ 30 → calculateWait w c = 0) ∧
    (30 < w + c → calculateWait w c =
      min 1000 (jsRound ((min 1 (((w + c - 30 : Int) : ℚ) / 60)) ^ 2 * 1000))) ∧
    (90 ≤ w + c → calculateWait w c = 1000) ∧
    (w + c = 60 → calculateWait w c = 250) := by
  refine ⟨?_, ?_, ?_, ?_⟩
  · intro h
    simp only [calculateWait, THROTTLE_THRESHOLD]
    rw [if_pos h]
  · intro h
    simp only [calculateWait, THROTTLE_THRESHOLD, RESERVE_QUOTA,
      MAX_QUOTA_PER_MINUTE, MAX_WAIT_MS]
    rw [if_neg (by omega)]
    norm_num
  · intro h
    simp only [calculateWait, THROTTLE_THRESHOLD, RESERVE_QUOTA,
      MAX_QUOTA_PER_MINUTE, MAX_WAIT_MS]
    rw [if_neg (by omega)]
    have hu : min (1 : ℚ) (((w + c - 30 : Int) : ℚ) / ((90 - 30 : Int) : ℚ)) = 1 := by
      apply min_eq_left
      rw [show ((90 - 30 : Int) : ℚ) = 60 by norm_num, le_div_iff₀ (by norm_num)]
      have : (60 : ℚ) ≤ ((w + c - 30 : Int) : ℚ) := by exact_mod_cast (by omega : (60 : Int) ≤ w + c - 30)
      linarith
    rw [hu]
    norm_num [jsRound]
  · intro h
    simp only [calculateWait, THROTTLE_THRESHOLD, RESERVE_QUOTA,
      MAX_QUOTA_PER_MINUTE, MAX_WAIT_MS]
    rw [if_neg (by omega)]
    have hd : ((w + c - 30 : Int) : ℚ) = 30 := by
      have : w + c - 30 = (30 : Int) := by omega
      rw [this]; norm_num
    rw [hd]
    norm_num [jsRound]

/-- C8: an endpoint path containing both the collection name `/playlists` and
its child-items name `/playlistItems` resolves to the child's cost (the
`PLAYLIST_ITEMS_LIST` entry, never the `PLAYLISTS_LIST` branch), and a path
matching none of the known patterns resolves to the non-zero default cost. -/
theorem quotaCost_most_specific :
    (∀ path : String, jsIncludes path "/playlists" = true →
      jsIncludes path "/playlistItems" = true →
      getQuotaCost path = QUOTA_COSTS.PLAYLIST_ITEMS_LIST) ∧
    (∀ path : String, jsIncludes path "/playlists" = false →
      jsIncludes path "/playlistItems" = false →
      jsIncludes path "/channels" = false →
      jsIncludes path "/search" = false →
      getQuotaCost path = DEFAULT_QUOTA_COST) ∧
    DEFAULT_QUOTA_COST ≠ 0 := by
  refine ⟨?_, ?_, by decide⟩
  · intro path h1 h2
    simp [getQuotaCost, h1, h2]
  · intro path h1 h2 h3 h4
    simp [getQuotaCost, h1, h2, h3, h4]

theorem quotaCost_most_specific_witness :
    getQuotaCost "/playlists/abc/playlistItems" = QUOTA_COSTS.PLAYLIST_ITEMS_LIST ∧
    getQuotaCost "/videos" = DEFAULT_QUOTA_COST :=
  ⟨quotaCost_most_specific.1 "/playlists/abc/playlistItems" (by decide) (by decide),
   quotaCost_most_specific.2.1 "/videos" (by decide) (by decide) (by decide) (by decide)⟩

/-! ### Quota error classifier (quotaError.ts)

`isQuotaExceededError(error: unknown)` inspects an arbitrary JavaScript value:
1. `error instanceof QuotaExceededError` → `true`;
2. `(error as AxiosError).response?.status === 403` → return
   `response.data?.error?.errors?.[0]?.reason === 'quotaExceeded'`;
3. `error instanceof Error` → return
   `error.message.toLowerCase().includes('quota exceeded')`;
4. otherwise `false`.

Step 2 reads the plain property `.response` on the value (only `.status`
onward is guarded by `?.`); in JavaScript a property read on `null` or
`undefined` throws a `TypeError`, while a property read on a string or a
number merely yields `undefined`.  The embedding therefore returns
`Except Unit Bool`, with `.error ()` standing for the escaping `TypeError`.

The relevant runtime facts about a value are: whether it is an instance of
`QuotaExceededError`, whether it is an instance of `Error` (every
`QuotaExceededError` also is one), its `message` string, and its `response`
property shaped `{status, data?.error?.errors?.[i]?.reason}`. -/

structure ApiErrorItem where
  reason : Option String
deriving DecidableEq

structure ApiErrorBody where
  errors : Option (List ApiErrorItem)
deriving DecidableEq

structure ApiResponseData where
  error : Option ApiErrorBody
deriving DecidableEq

structure AxiosResponse where
  status : Int
  data : Option ApiResponseData
deriving DecidableEq

/-- A JavaScript value as far as the classifier can observe it. -/
inductive JsVal where
  | vNull
  | vUndefined
  | vStr (s : String)
  | vNum (n : Int)
  | vObj (isQuotaExceededInstance : Bool) (isErrorInstance : Bool)
      (message : String) (response : Option AxiosResponse)
deriving DecidableEq

/-- JavaScript `String.prototype.toLowerCase` (ASCII fragment). -/
def jsToLower (s : String) : String := String.mk (s.toList.map Char.toLower)

/-- `error.message.toLowerCase().includes('quota exceeded')`. -/
def msgIndicatesQuota (msg : String) : Bool :=
  jsIncludes (jsToLower msg) "quota exceeded"

/-- The optional chain `response.data?.error?.errors?.[0]?.reason`. -/
def firstReason (r : AxiosResponse) : Option String :=
  (((r.data.bind (fun d => d.error)).bind (fun b => b.errors)).bind
      (fun es => es.head?)).bind (fun it => it.reason)

/-- `isQuotaExceededError`, check for check; `.error ()` models the
`TypeError` thrown by the `.response` read on `null`/`undefined`. -/
def isQuotaExceededError (e : JsVal) : Except Unit Bool :=
  match e with
  | .vObj true _ _ _ => .ok true
  | .vNull => .error ()
  | .vUndefined => .error ()
  | .vStr _ => .ok false
  | .vNum _ => .ok false
  | .vObj false isErr msg resp =>
    match resp with
    | some r =>
      if r.status = 403 then .ok (decide (firstReason r = some "quotaExceeded"))
      else .ok (isErr && msgIndicatesQuota msg)
    | none => .ok (isErr && msgIndicatesQuota msg)

/-- What `handleQuotaError` ends up throwing (it never returns normally). -/
inductive Thrown where
  /-- the `TypeError` raised inside the classifier itself propagates -/
  | typeErr
  /-- `throw new QuotaExceededError()` -/
  | quotaExceededErr
  /-- `throw error` — the original value, identity preserved -/
  | original (v : JsVal)
deriving DecidableEq

/-- `handleQuotaError(error)`: `if (isQuotaExceededError(error)) throw new
QuotaExceededError(); throw error;` -/
def handleQuotaError (e : JsVal) : Thrown :=
  match isQuotaExceededError e with
  | .error _ => .typeErr
  | .ok true => .quotaExceededErr
  | .ok false => .original e

/-- A 403 transport failure whose body's first reported reason is `why`. -/
def resp403 (why : String) (rest : List ApiErrorItem) : AxiosResponse :=
  { status := 403
    data := some { error := some { errors := some ({ reason := some why } :: rest) } } }

/-- C3: the classifier returns true for an internal `QuotaExceededError`
instance, true for a 403 whose first reported reason is exactly
`quotaExceeded`, false for the same shape with reason `forbidden`, false for
any 401-shaped transport failure, true for a generic `Error` whose message
contains the case-insensitive substring `quota exceeded`, and false for
everything else — other generic errors, strings, numbers, the empty object,
and 403s with malformed or empty error bodies. -/
theorem quota_classifier_cases :
    (∀ (isErr : Bool) (msg : String) (resp : Option AxiosResponse),
      isQuotaExceededError (.vObj true isErr msg resp) = .ok true) ∧
    (∀ (isErr : Bool) (msg : String) (rest : List ApiErrorItem),
      isQuotaExceededError
        (.vObj false isErr msg (some (resp403 "quotaExceeded" rest))) = .ok true) ∧
    (∀ (isErr : Bool) (msg : String) (rest : List ApiErrorItem),
      isQuotaExceededError
        (.vObj false isErr msg (some (resp403 "forbidden" rest))) = .ok false) ∧
    (∀ (msg : String) (d : Option ApiResponseData),
      isQuotaExceededError
        (.vObj false false msg (some { status := 401, data := d })) = .ok false) ∧
    (∀ msg : String, msgIndicatesQuota msg = true →
      isQuotaExceededError (.vObj false true msg none) = .ok true) ∧
    (∀ msg : String, msgIndicatesQuota msg = false →
      isQuotaExceededError (.vObj false true msg none) = .ok false) ∧
    (∀ (isErr : Bool) (msg : String) (r : AxiosResponse), r.status = 403 →
      firstReason r ≠ some "quotaExceeded" →
      isQuotaExceededError (.vObj false isErr msg (some r)) = .ok false) ∧
    (∀ s : String, isQuotaExceededError (.vStr s) = .ok false) ∧
    (∀ n : Int, isQuotaExceededError (.vNum n) = .ok false) ∧
    (∀ msg : String, isQuotaExceededError (.vObj false false msg none) = .ok false) := by
  refine ⟨fun _ _ _ => rfl, ?_, ?_, ?_, ?_, ?_, ?_, fun _ => rfl, fun _ => rfl,
    fun _ => rfl⟩
  · intro isErr msg rest
    simp [isQuotaExceededError, resp403, firstReason]
  · intro isErr msg rest
    simp [isQuotaExceededError, resp403, firstReason]
  · intro msg d
    simp [isQuotaExceededError, msgIndicatesQuota]
  · intro msg h
    simp [isQuotaExceededError, h]
  · intro msg h
    simp [isQuotaExceededError, h]
  · intro isErr msg r h1 h2
    simp [isQuotaExceededError, h1, h2]

theorem quota_classifier_cases_witness :
    isQuotaExceededError (.vObj true true "quota" none) = .ok true ∧
    isQuotaExceededError
      (.vObj false false "" (some (resp403 "quotaExceeded" []))) = .ok true ∧
    isQuotaExceededError
      (.vObj false false "" (some (resp403 "forbidden" []))) = .ok false ∧
    isQuotaExceededError
      (.vObj false false "" (some { status := 401, data := none })) = .ok false ∧
    isQuotaExceededError
      (.vObj false true "QUOTA EXCEEDED - try again tomorrow" none) = .ok true ∧
    isQuotaExceededError (.vObj false true "Network error" none) = .ok false ∧
    isQuotaExceededError
      (.vObj false false "" (some { status := 403, data := none })) = .ok false ∧
    isQuotaExceededError (.vObj false false "" none) = .ok false :=
  ⟨quota_classifier_cases.1 true "quota" none,
   quota_classifier_cases.2.1 false "" [],
   quota_classifier_cases.2.2.1 false "" [],
   quota_classifier_cases.2.2.2.1 "" none,
   quota_classifier_cases.2.2.2.2.1 "QUOTA EXCEEDED - try again tomorrow" (by decide),
   quota_classifier_cases.2.2.2.2.2.1 "Network error" (by decide),
   quota_classifier_cases.2.2.2.2.2.2.1 false "" { status := 403, data := none }
     rfl (by decide),
   quota_classifier_cases.2.2.2.2.2.2.2.2.2 ""⟩

/-- C10 counterexample: on input `null` the classifier does not return a
boolean — the unguarded `.response` property read throws a `TypeError`. -/
theorem quota_classifier_null_throws :
    isQuotaExceededError .vNull = .error () ∧
    isQuotaExceededError .vUndefined = .error () := ⟨rfl, rfl⟩

/-- C10 amended: for every input other than `null` and `undefined` the
classifier returns a boolean and never itself raises; on `null` and
`undefined` the `.response` read raises a `TypeError`. -/
theorem quota_classifier_total_amended :
    (∀ e : JsVal, e ≠ .vNull → e ≠ .vUndefined →
      ∃ b : Bool, isQuotaExceededError e = .ok b) ∧
    isQuotaExceededError .vNull = .error () ∧
    isQuotaExceededError .vUndefined = .error () := by
  refine ⟨?_, rfl, rfl⟩
  intro e h1 h2
  match e with
  | .vNull => exact absurd rfl h1
  | .vUndefined => exact absurd rfl h2
  | .vStr s => exact ⟨false, rfl⟩
  | .vNum n => exact ⟨false, rfl⟩
  | .vObj true isErr msg resp => exact ⟨true, rfl⟩
  | .vObj false isErr msg (some r) =>
    by_cases h : r.status = 403
    · exact ⟨decide (firstReason r = some "quotaExceeded"),
        by simp [isQuotaExceededError, h]⟩
    · exact ⟨isErr && msgIndicatesQuota msg, by simp [isQuotaExceededError, h]⟩
  | .vObj false isErr msg none => exact ⟨isErr && msgIndicatesQuota msg, rfl⟩

theorem quota_classifier_total_amended_witness :
    ∃ b : Bool, isQuotaExceededError (.vStr "boom") = .ok b :=
  quota_classifier_total_amended.1 (.vStr "boom") (by decide) (by decide)

/-- C9 counterexample: at input `null` the classifier does not classify true
(it throws), yet `handleQuotaError` does not re-raise the original value
either — the `TypeError` escapes instead. -/
theorem handleQuotaError_null_counterexample :
    handleQuotaError .vNull = .typeErr ∧
    Thrown.typeErr ≠ Thrown.original .vNull ∧
    isQuotaExceededError .vNull ≠ .ok true :=
  ⟨rfl, by decide, fun h => Except.noConfusion h⟩

/-- C9 amended: `handleQuotaError` raises the internal quota-exceeded error
exactly when the classifier returns true, re-raises the original value
unchanged when the classifier returns false, and lets the classifier's own
`TypeError` (inputs `null`/`undefined`) propagate; it never returns
normally. -/
theorem handleQuotaError_amended (e : JsVal) :
    (handleQuotaError e = .quotaExceededErr ↔ isQuotaExceededError e = .ok true) ∧
    (isQuotaExceededError e = .ok false → handleQuotaError e = .original e) ∧
    (isQuotaExceededError e = .error () → handleQuotaError e = .typeErr) := by
  refine ⟨⟨?_, ?_⟩, ?_, ?_⟩
  · intro h
    cases hq : isQuotaExceededError e with
    | error u => simp [handleQuotaError, hq] at h
    | ok b =>
      cases b
      · simp [handleQuotaError, hq] at h
      · rfl
  · intro h
    simp [handleQuotaError, h]
  · intro h
    simp [handleQuotaError, h]
  · intro h
    simp [handleQuotaError, h]

theorem handleQuotaError_amended_witness :
    handleQuotaError (.vStr "boom") = .original (.vStr "boom") ∧
    handleQuotaError (.vObj true true "q" none) = .quotaExceededErr ∧
    handleQuotaError .vNull = .typeErr :=
  ⟨(handleQuotaError_amended (.vStr "boom")).2.1 rfl,
   (handleQuotaError_amended (.vObj true true "q" none)).1.mpr rfl,
   (handleQuotaError_amended .vNull).2.2 rfl⟩

/-- C7: replaying any sequence of `record(points)` calls (each tagged with the
second at which it ran), `countLast60Seconds()` at second `now` returns the
sum of exactly those recorded points whose bucket second is strictly greater
than `now - 60`; and the map holds at most one bucket per second (same-second
calls aggregate). -/
theorem quotaTracker_window_sum (calls : List (Int × Int)) (now : Int) :
    (QuotaTracker.countLast60Seconds (QuotaTracker.replay calls) now).1 =
      ((calls.filter (fun c => decide (now - 60 < c.1))).map (fun c => c.2)).sum ∧
    (QuotaTracker.keysOf (QuotaTracker.replay calls)).Nodup := by
  constructor
  · rw [QuotaTracker.countLast60Seconds_fst]
    have h := QuotaTracker.windowSum_foldl calls now []
    simpa [QuotaTracker.replay, QuotaTracker.windowSum] using h
  · exact QuotaTracker.keysOf_foldl_nodup calls [] (by simp [QuotaTracker.keysOf])

end YPE

namespace YPE

/-! ### Paginated fetch loop (playlistItems.ts)

`getAllPlaylistItems(playlistId, onProgress?)`:
```
let allItems = []; let nextPageToken; let totalResults = 0;
do {
  const response = await this.getPlaylistItemsPage(playlistId, nextPageToken);
  allItems = [...allItems, ...response.items];
  nextPageToken = response.nextPageToken;
  totalResults = response.pageInfo.totalResults;
  if (onProgress) onProgress(allItems, totalResults);
} while (nextPageToken);
return allItems;
```
The server is modelled as the sequence of outcomes of the successive
`getPlaylistItemsPage` calls (`Except ε page`: a rejected page request is
`.error`).  The embedding returns the loop's outcome together with the list
of `(allItems, totalResults)` arguments passed to `onProgress`, one entry per
completed iteration. -/

structure PageInfo where
  totalResults : Int
deriving DecidableEq

structure PlaylistItemsResponse (α : Type) where
  items : List α
  nextPageToken : Option String
  pageInfo : PageInfo
deriving DecidableEq

/-- Outcome of the fetch loop.  `outOfResponses` marks a scenario that models
fewer server responses than the loop requests (never reached in the theorems
below). -/
inductive FetchOutcome (ε α : Type) where
  | success (items : List α)
  | failure (e : ε)
  | outOfResponses
deriving DecidableEq

/-- The do-while loop, one constructor per iteration. -/
def getAllPlaylistItemsGo {ε α : Type} (acc : List α) (trace : List (List α × Int)) :
    List (Except ε (PlaylistItemsResponse α)) → FetchOutcome ε α × List (List α × Int)
  | [] => (.outOfResponses, trace)
  | .error e :: _ => (.failure e, trace)
  | .ok page :: rest =>
    let acc2 := acc ++ page.items
    let trace2 := trace ++ [(acc2, page.pageInfo.totalResults)]
    match page.nextPageToken with
    | some _ => getAllPlaylistItemsGo acc2 trace2 rest
    | none => (.success acc2, trace2)

/-- `getAllPlaylistItems` driven against a modelled response sequence. -/
def getAllPlaylistItems {ε α : Type}
    (responses : List (Except ε (PlaylistItemsResponse α))) :
    FetchOutcome ε α × List (List α × Int) :=
  getAllPlaylistItemsGo [] [] responses

/-- The `onProgress` argument list produced by a run of all-successful pages
starting from accumulator `acc`. -/
def progressTrace {α : Type} (acc : List α) :
    List (PlaylistItemsResponse α) → List (List α × Int)
  | [] => []
  | p :: rest =>
    (acc ++ p.items, p.pageInfo.totalResults) :: progressTrace (acc ++ p.items) rest

theorem getAllPlaylistItemsGo_success {ε α : Type}
    (init : List (PlaylistItemsResponse α)) (last : PlaylistItemsResponse α) :
    ∀ (acc : List α) (trace : List (List α × Int)),
      (∀ p ∈ init, p.nextPageToken.isSome = true) →
      last.nextPageToken = none →
      getAllPlaylistItemsGo (ε := ε) acc trace ((init ++ [last]).map Except.ok) =
        (.success (acc ++ (init ++ [last]).flatMap (fun p => p.items)),
          trace ++ progressTrace acc (init ++ [last])) := by
  induction init with
  | nil =>
    intro acc trace _ hlast
    simp [getAllPlaylistItemsGo, hlast, progressTrace]
  | cons p rest ih =>
    intro acc trace hinit hlast
    have hp : p.nextPageToken.isSome = true := hinit p (by simp)
    obtain ⟨t, ht⟩ := Option.isSome_iff_exists.mp hp
    have hrest : ∀ q ∈ rest, q.nextPageToken.isSome = true := by
      intro q hq; exact hinit q (by simp [hq])
    simp only [List.cons_append, List.map_cons, getAllPlaylistItemsGo, ht,
      List.append_eq]
    rw [ih (acc ++ p.items) (trace ++ [(acc ++ p.items, p.pageInfo.totalResults)])
      hrest hlast]
    simp [progressTrace]

theorem getAllPlaylistItemsGo_failure {ε α : Type}
    (good : List (PlaylistItemsResponse α)) (e : ε)
    (rest : List (Except ε (PlaylistItemsResponse α))) :
    ∀ (acc : List α) (trace : List (List α × Int)),
      (∀ p ∈ good, p.nextPageToken.isSome = true) →
      getAllPlaylistItemsGo acc trace
          (good.map Except.ok ++ Except.error e :: rest) =
        (.failure e, trace ++ progressTrace acc good) := by
  induction good with
  | nil => intro acc trace _; simp [getAllPlaylistItemsGo, progressTrace]
  | cons p ps ih =>
    intro acc trace hgood
    have hp : p.nextPageToken.isSome = true := hgood p (by simp)
    obtain ⟨t, ht⟩ := Option.isSome_iff_exists.mp hp
    have hps : ∀ q ∈ ps, q.nextPageToken.isSome = true := by
      intro q hq; exact hgood q (by simp [hq])
    simp only [List.cons_append, List.map_cons, getAllPlaylistItemsGo, ht,
      List.append_eq]
    rw [ih _ _ hps]
    simp [progressTrace]

/-- Builds a page response. -/
def mkPage {α : Type} (its : List α) (tok : Option String) (total : Int) :
    PlaylistItemsResponse α :=
  { items := its, nextPageToken := tok, pageInfo := { totalResults := total } }

/-- The concrete three-page run of the claim: pages of 50, 50 and 30 items
(cursors on pages 1–2, none on page 3; server-reported total 130). -/
def threePages : List (PlaylistItemsResponse Nat) :=
  [mkPage ((List.range 130).take 50) (some "page2") 130,
   mkPage (((List.range 130).drop 50).take 50) (some "page3") 130,
   mkPage ((List.range 130).drop 100) none 130]

/-- C5: against any all-successful response sequence whose last page carries
no cursor, the loop accumulates every page's items in server order, fires
`onProgress` once per page with the accumulated list and the reported total,
and terminates at the cursorless page; on three pages of 50/50/30 items with
total 130 it returns the 130 items in original order with exactly the
progress calls (50,130), (100,130), (130,130). -/
theorem fetch_pagination :
    (∀ (α ε : Type) (init : List (PlaylistItemsResponse α))
        (last : PlaylistItemsResponse α),
      (∀ p ∈ init, p.nextPageToken.isSome = true) →
      last.nextPageToken = none →
      getAllPlaylistItems (ε := ε) ((init ++ [last]).map Except.ok) =
        (.success ((init ++ [last]).flatMap (fun p => p.items)),
          progressTrace [] (init ++ [last]))) ∧
    getAllPlaylistItems (ε := Unit) (threePages.map Except.ok) =
      (.success (List.range 130),
        [((List.range 130).take 50, 130), ((List.range 130).take 100, 130),
          (List.range 130, 130)]) := by
  constructor
  · intro α ε init last hinit hlast
    simpa using getAllPlaylistItemsGo_success init last [] [] hinit hlast
  · rfl

theorem fetch_pagination_witness :
    getAllPlaylistItems (ε := Unit)
        [Except.ok (mkPage [10, 20] (some "p2") 3), Except.ok (mkPage [30] none 3)] =
      (.success [10, 20, 30], [([10, 20], 3), ([10, 20, 30], 3)]) := by
  have h := fetch_pagination.1 Nat Unit [mkPage [10, 20] (some "p2") 3]
      (mkPage [30] none 3) (by decide) rfl
  simpa [progressTrace, mkPage] using h

/-- C6: if some page request fails after earlier pages succeeded, the whole
call rejects with exactly that failure — the loop aborts at the failing page
(the progress trace stops with the successful prefix) and the accumulated
items of the earlier pages never appear as a success result. -/
theorem fetch_abort_on_failure :
    (∀ (α ε : Type) (good : List (PlaylistItemsResponse α)) (e : ε)
        (rest : List (Except ε (PlaylistItemsResponse α))),
      (∀ p ∈ good, p.nextPageToken.isSome = true) →
      getAllPlaylistItems (good.map Except.ok ++ Except.error e :: rest) =
        (.failure e, progressTrace [] good)) ∧
    (∀ (α ε : Type) (e : ε) (xs : List α),
      (FetchOutcome.failure e : FetchOutcome ε α) ≠ .success xs) ∧
    (getAllPlaylistItems (ε := String)
        [Except.ok (mkPage (List.range 50) (some "page2") 130),
          Except.error "page 2 failed"]).1 = .failure "page 2 failed" := by
  refine ⟨?_, ?_, rfl⟩
  · intro α ε good e rest hgood
    simpa using getAllPlaylistItemsGo_failure good e rest [] [] hgood
  · intro α ε e xs h
    exact FetchOutcome.noConfusion h

theorem fetch_abort_on_failure_witness :
    getAllPlaylistItems (ε := String)
        [Except.ok (mkPage [(1 : Nat), 2] (some "p2") 3), Except.error "boom"] =
      (.failure "boom", [([1, 2], 3)]) := by
  have h := fetch_abort_on_failure.1 Nat String [mkPage [1, 2] (some "p2") 3]
      "boom" [] (by decide)
  simpa [progressTrace, mkPage] using h

/-! ### ThrottleQueue.execute (throttleQueue.ts)

```
async execute(quotaCost, request) {
  await this.acquireSlot(quotaCost);   // serialize decisions; sleep if throttled
  this.tracker.record(quotaCost);      // record BEFORE executing the request
  return request();                    // result / failure returned as-is
}
```
`acquireSlot` chains onto `this.mutex`, computes `calculateWait` (which reads
and purges the tracker), sleeps `waitTime` ms, then calls the stored
`resolveSlot()` and returns. -/

/-- Observable events of a run of the throttle queue, in program order.
`decided i window wait` is caller `i`'s `calculateWait` evaluation
(`window` = the `countLast60Seconds()` it read); `slotReleased i` is its
`resolveSlot()`; `recorded` / `invoked` are `tracker.record(cost)` and the
call of the request function in `execute`. -/
inductive ThrottleEvent where
  | decided (idx : Nat) (window : Int) (wait : Int)
  | slotReleased (idx : Nat)
  | recorded (idx : Nat) (cost : Int)
  | invoked (idx : Nat)
deriving DecidableEq

structure ExecResult (ε α : Type) where
  result : Except ε α
  tracker : QuotaMap
  events : List ThrottleEvent

/-- A single `execute(quotaCost, request)` call running alone (the mutex is
free): straight-line translation of `acquireSlot` followed by the body of
`execute`.  `now` is `getCurrentSecond()`; the request's outcome is the
`request` argument. -/
def execute {ε α : Type} (m : QuotaMap) (now quotaCost : Int)
    (request : Except ε α) : ExecResult ε α :=
  let c := QuotaTracker.countLast60Seconds m now
  let wait := calculateWait c.1 quotaCost
  let m2 := QuotaTracker.record c.2 now quotaCost
  { result := request
    tracker := m2
    events := [.decided 0 c.1 wait, .slotReleased 0, .recorded 0 quotaCost,
      .invoked 0] }

/-- C4: `execute(cost, requestFn)` returns exactly the request's result or
failure (no retry, no reinterpretation: the request appears exactly once in
the event trace), and the cost is recorded into the ledger before the request
is invoked (the `recorded` event strictly precedes the single `invoked`
event). -/
theorem throttle_execute_passthrough (ε α : Type) (m : QuotaMap)
    (now cost : Int) (req : Except ε α) :
    (execute m now cost req).result = req ∧
    (execute m now cost req).events =
      [.decided 0 (QuotaTracker.windowSum m now)
          (calculateWait (QuotaTracker.windowSum m now) cost),
        .slotReleased 0, .recorded 0 cost, .invoked 0] ∧
    ((execute m now cost req).events.count (.invoked 0) = 1 ∧
      (execute m now cost req).events.take 3 =
        [.decided 0 (QuotaTracker.windowSum m now)
            (calculateWait (QuotaTracker.windowSum m now) cost),
          .slotReleased 0, .recorded 0 cost]) := by
  refine ⟨rfl, rfl, ?_, rfl⟩
  simp [execute, List.count_cons]

/-- Integer form of `calculateWait` (proved pointwise equal in
`calculateWait_eq_int`); used inside the event-loop model below so that
concrete runs evaluate inside the kernel, where `ℚ` arithmetic does not
reduce. -/
def calculateWaitInt (consumed quotaCost : Int) : Int :=
  let d := consumed + quotaCost - 30
  if consumed + quotaCost ≤ 30 then 0
  else if 60 ≤ d then 1000
  else min 1000 ((2000 * d ^ 2 + 3600) / 7200)

theorem calculateWait_eq_int (w c : Int) : calculateWait w c = calculateWaitInt w c := by
  unfold calculateWait calculateWaitInt
  simp only [THROTTLE_THRESHOLD, RESERVE_QUOTA, MAX_QUOTA_PER_MINUTE, MAX_WAIT_MS]
  by_cases h1 : w + c ≤ 30
  · simp [h1]
  · rw [if_neg h1, if_neg h1]
    by_cases h2 : 60 ≤ w + c - 30
    · rw [if_pos h2]
      have hu : min (1 : ℚ) (((w + c - 30 : Int) : ℚ) / ((90 - 30 : Int) : ℚ)) = 1 := by
        apply min_eq_left
        rw [show ((90 - 30 : Int) : ℚ) = 60 by norm_num, le_div_iff₀ (by norm_num)]
        have h3 : (60 : ℚ) ≤ ((w + c - 30 : Int) : ℚ) := by exact_mod_cast h2
        linarith
      rw [hu]
      norm_num [jsRound]
    · rw [if_neg h2]
      set d : Int := w + c - 30 with hd
      have hd1 : 1 ≤ d := by omega
      have hd60 : d < 60 := by omega
      have hu : min (1 : ℚ) ((d : ℚ) / ((90 - 30 : Int) : ℚ)) = (d : ℚ) / 60 := by
        rw [show ((90 - 30 : Int) : ℚ) = 60 by norm_num]
        apply min_eq_right
        rw [div_le_one (by norm_num)]
        exact_mod_cast le_of_lt hd60
      rw [hu]
      have harg : ((d : ℚ) / 60) ^ 2 * ((1000 : Int) : ℚ) + 1 / 2 =
          ((2000 * d ^ 2 + 3600 : Int) : ℚ) / ((7200 : Nat) : ℚ) := by
        push_cast
        field_simp
        ring
      rw [jsRound, harg, Rat.floor_intCast_div_natCast]
      norm_num

/-! ### Binary64 model of calculateWait

The program computes the backoff in JavaScript numbers, i.e. IEEE-754
binary64: `(afterRequest - THROTTLE_THRESHOLD) / RESERVE_QUOTA` rounds the
quotient to 53 significant bits, and so do the two multiplications in
`Math.pow(utilizationRatio, 2) * MAX_WAIT_MS`.  A nonnegative binary64 value
is a dyadic rational `m * 2^e`; `roundPQ` rounds an exact rational
`(p / q) * 2^e` to the nearest such value (ties to even) by scaling `p / q`
into `[2^52, 2^53)` and rounding the quotient.  `Math.round` and `Math.min`
are exact on the represented values (the ECMAScript spec defines them on the
number's exact mathematical value), and the integer additions and
subtractions here are exact in binary64.  `Math.pow(u, 2)` is modelled as the
correctly rounded product `u * u`; at this claim's decision points the two
coincide.  Integer quantities stay `Int`. -/

structure F64 where
  m : Nat
  e : Int
deriving DecidableEq

/-- The exact rational value represented by a float. -/
def F64.val (f : F64) : ℚ := (f.m : ℚ) * (2 : ℚ) ^ f.e

/-- Scale `p / q` (times `2^e`) until `p / q ∈ [2^52, 2^53)`, keeping the
represented value constant.  The fuel is structural; `p + q + 120` steps
always suffice (`roundPQ_exit`). -/
def normLoop : Nat → Nat → Nat → Int → Nat × Nat × Int
  | 0, p, q, e => (p, q, e)
  | fuel + 1, p, q, e =>
    if p < 2 ^ 52 * q then normLoop fuel (2 * p) q (e - 1)
    else if 2 ^ 53 * q ≤ p then normLoop fuel p (2 * q) (e + 1)
    else (p, q, e)

theorem normLoop_succ (f p q : Nat) (e : Int) :
    normLoop (f + 1) p q e =
      if p < 2 ^ 52 * q then normLoop f (2 * p) q (e - 1)
      else if 2 ^ 53 * q ≤ p then normLoop f p (2 * q) (e + 1)
      else (p, q, e) := rfl

theorem normLoop_pos (fuel : Nat) : ∀ (p q : Nat) (e : Int), 0 < q →
    0 < (normLoop fuel p q e).2.1 := by
  induction fuel with
  | zero => intro p q e hq; simpa [normLoop] using hq
  | succ f ih =>
    intro p q e hq
    rw [normLoop_succ]
    by_cases h1 : p < 2 ^ 52 * q
    · rw [if_pos h1]; exact ih (2 * p) q (e - 1) hq
    · rw [if_neg h1]
      by_cases h2 : 2 ^ 53 * q ≤ p
      · rw [if_pos h2]; exact ih p (2 * q) (e + 1) (by omega)
      · rw [if_neg h2]; exact hq

theorem normLoop_val (fuel : Nat) : ∀ (p q : Nat) (e : Int), 0 < q →
    (((normLoop fuel p q e).1 : ℚ) / ((normLoop fuel p q e).2.1 : ℚ)) *
        (2 : ℚ) ^ (normLoop fuel p q e).2.2 = ((p : ℚ) / q) * (2 : ℚ) ^ e := by
  induction fuel with
  | zero => intro p q e hq; simp [normLoop]
  | succ f ih =>
    intro p q e hq
    rw [normLoop_succ]
    by_cases h1 : p < 2 ^ 52 * q
    · rw [if_pos h1, ih (2 * p) q (e - 1) hq]
      have h2 : (2 : ℚ) ^ (e - 1) = 2 ^ e / 2 := by
        rw [zpow_sub₀ (by norm_num : (2:ℚ) ≠ 0), zpow_one]
      rw [h2]
      push_cast
      ring
    · rw [if_neg h1]
      by_cases h2 : 2 ^ 53 * q ≤ p
      · rw [if_pos h2, ih p (2 * q) (e + 1) (by omega)]
        have h3 : (2 : ℚ) ^ (e + 1) = 2 ^ e * 2 := by
          rw [zpow_add₀ (by norm_num : (2:ℚ) ≠ 0), zpow_one]
        rw [h3]
        have hq2 : (q : ℚ) ≠ 0 := by positivity
        push_cast
        field_simp
        ring
      · rw [if_neg h2]

theorem normLoop_exit (fuel : Nat) : ∀ (p q : Nat) (e : Int), 0 < p → 0 < q →
    2 ^ 52 * q ≤ p * 2 ^ fuel → p < 2 ^ 53 * q * 2 ^ fuel →
    2 ^ 52 * (normLoop fuel p q e).2.1 ≤ (normLoop fuel p q e).1 ∧
      (normLoop fuel p q e).1 < 2 ^ 53 * (normLoop fuel p q e).2.1 := by
  induction fuel with
  | zero =>
    intro p q e hp hq hlo hhi
    simp only [pow_zero, mul_one] at hlo hhi
    simpa [normLoop] using ⟨hlo, hhi⟩
  | succ f ih =>
    intro p q e hp hq hlo hhi
    have e1 : p * 2 ^ (f + 1) = 2 * p * 2 ^ f := by ring
    have e2 : 2 ^ 53 * q * 2 ^ (f + 1) = 2 ^ 53 * (2 * q) * 2 ^ f := by ring
    have e3 : 2 ^ 53 * q = 2 * (2 ^ 52 * q) := by ring
    have hf1 : 1 ≤ 2 ^ f := Nat.one_le_two_pow
    have hf2 : 2 ^ 53 * q ≤ 2 ^ 53 * q * 2 ^ f :=
      Nat.le_mul_of_pos_right _ (by positivity)
    have hf3 : 2 ^ 53 * q ≤ p * 2 ^ f → 2 ^ 52 * (2 * q) ≤ p * 2 ^ f := by
      intro h; linarith
    rw [normLoop_succ]
    by_cases h1 : p < 2 ^ 52 * q
    · rw [if_pos h1]
      refine ih (2 * p) q (e - 1) (by omega) hq (by linarith) (by linarith)
    · rw [if_neg h1]
      by_cases h2 : 2 ^ 53 * q ≤ p
      · rw [if_pos h2]
        refine ih p (2 * q) (e + 1) hp (by omega) ?_ (by linarith)
        refine hf3 ?_
        calc 2 ^ 53 * q ≤ p := h2
          _ ≤ p * 2 ^ f := Nat.le_mul_of_pos_right _ (by positivity)
      · rw [if_neg h2]
        exact ⟨Nat.le_of_not_lt h1, Nat.lt_of_not_le h2⟩

/-- Round the ratio `p2 / q2` (already scaled into `[2^52, 2^53)`) to the
nearest integer mantissa, ties to even. -/
def roundMant (p2 q2 : Nat) : Nat :=
  if 2 * (p2 % q2) < q2 then p2 / q2
  else if q2 < 2 * (p2 % q2) then p2 / q2 + 1
  else if (p2 / q2) % 2 = 0 then p2 / q2 else p2 / q2 + 1

/-- Round the exact rational `(p / q) * 2^e` to the nearest binary64 value. -/
def roundPQ (p q : Nat) (e : Int) : F64 :=
  ⟨roundMant (normLoop (p + q + 120) p q e).1 (normLoop (p + q + 120) p q e).2.1,
    (normLoop (p + q + 120) p q e).2.2⟩

theorem roundMant_ge (p2 q2 : Nat) : p2 / q2 ≤ roundMant p2 q2 := by
  unfold roundMant
  by_cases h1 : 2 * (p2 % q2) < q2
  · simp [h1]
  · by_cases h2 : q2 < 2 * (p2 % q2)
    · simp [h1, h2]
    · by_cases h3 : (p2 / q2) % 2 = 0 <;> simp [h1, h2, h3]

theorem roundPQ_exit (p q : Nat) (e : Int) (hp : 0 < p) (hq : 0 < q) :
    2 ^ 52 * (normLoop (p + q + 120) p q e).2.1 ≤ (normLoop (p + q + 120) p q e).1 ∧
      (normLoop (p + q + 120) p q e).1 < 2 ^ 53 * (normLoop (p + q + 120) p q e).2.1 := by
  refine normLoop_exit (p + q + 120) p q e hp hq ?_ ?_
  · calc 2 ^ 52 * q ≤ 2 ^ 52 * 2 ^ q :=
          Nat.mul_le_mul_left _ (le_of_lt (Nat.lt_two_pow q))
    _ = 2 ^ (52 + q) := by rw [pow_add]
    _ ≤ 2 ^ (p + q + 120) := Nat.pow_le_pow_right (by norm_num) (by omega)
    _ ≤ p * 2 ^ (p + q + 120) := Nat.le_mul_of_pos_left _ hp
  · calc p < 2 ^ p := Nat.lt_two_pow p
    _ ≤ 2 ^ (p + q + 120) := Nat.pow_le_pow_right (by norm_num) (by omega)
    _ ≤ (2 ^ 53 * q) * 2 ^ (p + q + 120) :=
          Nat.le_mul_of_pos_left _ (by positivity)

theorem roundPQ_m_ge (p q : Nat) (e : Int) :
    (normLoop (p + q + 120) p q e).1 / (normLoop (p + q + 120) p q e).2.1 ≤
      (roundPQ p q e).m :=
  roundMant_ge _ _

/-- If the exact input value is at least `2^t`, so is the rounded value:
the mantissa ends at least `2^52` and the exit bounds force the exponent
high enough. -/
theorem roundPQ_ge_pow (t : Nat) (p q : Nat) (e : Int) (hp : 0 < p) (hq : 0 < q)
    (hV : (2 : ℚ) ^ t ≤ ((p : ℚ) / q) * (2 : ℚ) ^ e) :
    (2 : ℚ) ^ t ≤ (roundPQ p q e).val := by
  obtain ⟨hlo, hhi⟩ := roundPQ_exit p q e hp hq
  set r := normLoop (p + q + 120) p q e with hr
  have hq2 : 0 < r.2.1 := normLoop_pos _ p q e hq
  have hval : ((r.1 : ℚ) / (r.2.1 : ℚ)) * (2 : ℚ) ^ r.2.2 = ((p : ℚ) / q) * (2 : ℚ) ^ e :=
    normLoop_val _ p q e hq
  have hm : 2 ^ 52 ≤ (roundPQ p q e).m := by
    have hmge := roundPQ_m_ge p q e
    rw [← hr] at hmge
    refine le_trans ?_ hmge
    rw [Nat.le_div_iff_mul_le hq2]
    omega
  have hVlt : ((p : ℚ) / q) * (2 : ℚ) ^ e < (2 : ℚ) ^ (53 : ℕ) * (2 : ℚ) ^ r.2.2 := by
    rw [← hval]
    have hdiv : (r.1 : ℚ) / (r.2.1 : ℚ) < (2 : ℚ) ^ (53 : ℕ) := by
      rw [div_lt_iff₀ (by exact_mod_cast hq2)]
      exact_mod_cast hhi
    have hpos : (0 : ℚ) < (2 : ℚ) ^ r.2.2 := zpow_pos (by norm_num) _
    exact mul_lt_mul_of_pos_right hdiv hpos
  have he2 : (t : ℤ) ≤ 52 + r.2.2 := by
    have h1 : (2 : ℚ) ^ (t : ℤ) < (2 : ℚ) ^ ((53 : ℤ) + r.2.2) := by
      rw [zpow_add₀ (by norm_num : (2:ℚ) ≠ 0)]
      calc (2 : ℚ) ^ (t : ℤ) = (2 : ℚ) ^ t := by rw [zpow_natCast]
      _ ≤ ((p : ℚ) / q) * (2 : ℚ) ^ e := hV
      _ < (2 : ℚ) ^ (53 : ℕ) * (2 : ℚ) ^ r.2.2 := hVlt
      _ = (2 : ℚ) ^ (53 : ℤ) * (2 : ℚ) ^ r.2.2 := by norm_num
    have h2 : (t : ℤ) < 53 + r.2.2 :=
      (zpow_lt_zpow_iff_right₀ (by norm_num : (1:ℚ) < 2)).mp h1
    omega
  have hee : (roundPQ p q e).e = r.2.2 := by rw [hr]; rfl
  have hval2 : (roundPQ p q e).val = ((roundPQ p q e).m : ℚ) * (2 : ℚ) ^ r.2.2 := by
    rw [F64.val, hee]
  rw [hval2]
  calc (2 : ℚ) ^ t = (2 : ℚ) ^ (t : ℤ) := by rw [zpow_natCast]
  _ ≤ (2 : ℚ) ^ ((52 : ℤ) + r.2.2) :=
        (zpow_le_zpow_iff_right₀ (by norm_num : (1:ℚ) < 2)).mpr (by omega)
  _ = (2 : ℚ) ^ (52 : ℤ) * (2 : ℚ) ^ r.2.2 := by
        rw [zpow_add₀ (by norm_num : (2:ℚ) ≠ 0)]
  _ ≤ ((roundPQ p q e).m : ℚ) * (2 : ℚ) ^ r.2.2 := by
        have h52 : ((2 : ℚ) ^ (52 : ℤ)) ≤ ((roundPQ p q e).m : ℚ) := by
          have hc : ((2 ^ 52 : ℕ) : ℚ) ≤ ((roundPQ p q e).m : ℚ) := by exact_mod_cast hm
          calc (2 : ℚ) ^ (52 : ℤ) = ((2 ^ 52 : ℕ) : ℚ) := by norm_num
          _ ≤ _ := hc
        exact mul_le_mul_of_nonneg_right h52 (le_of_lt (zpow_pos (by norm_num) _))

/-- `ofNat64 n` is the binary64 value of the integer `n` (exact for
`n < 2^53`, rounded beyond). -/
def ofNat64 (n : Nat) : F64 := roundPQ n 1 0

/-- Binary64 division: round the exact quotient. -/
def fdiv64 (a b : F64) : F64 := roundPQ a.m b.m (a.e - b.e)

/-- Binary64 multiplication: round the exact product. -/
def fmul64 (a b : F64) : F64 := roundPQ (a.m * b.m) 1 (a.e + b.e)

/-- Exact comparison of represented values (floating-point compare is
exact). -/
def fle64 (a b : F64) : Bool :=
  if a.e ≤ b.e then decide (a.m ≤ b.m * 2 ^ (b.e - a.e).toNat)
  else decide (a.m * 2 ^ (a.e - b.e).toNat ≤ b.m)

/-- `Math.min` on two floats: the smaller represented value. -/
def fmin64 (a b : F64) : F64 := if fle64 a b then a else b

/-- `Math.round` on the exact represented value (ties toward `+∞`):
`⌊v + 1/2⌋`. -/
def round64 (a : F64) : Int :=
  if 0 ≤ a.e then (a.m : Int) * 2 ^ a.e.toNat
  else (((a.m + 2 ^ ((-a.e).toNat - 1)) / 2 ^ (-a.e).toNat : Nat) : Int)

/-- `Math.min(1, (afterRequest - THROTTLE_THRESHOLD) / RESERVE_QUOTA)` in
binary64, for `d = afterRequest - THROTTLE_THRESHOLD ≥ 1`. -/
def u64 (d : Nat) : F64 := fmin64 (ofNat64 1) (fdiv64 (ofNat64 d) (ofNat64 60))

/-- `calculateWait` as the program executes it, in binary64: the quotient,
the square (`Math.pow(u, 2)` = the rounded product), and the product with
`MAX_WAIT_MS` each round to 53 bits; `Math.round` and `Math.min` are exact. -/
def calculateWait64 (consumed quotaCost : Int) : Int :=
  if consumed + quotaCost ≤ 30 then 0
  else
    min 1000 (round64 (fmul64
      (fmul64 (u64 ((consumed + quotaCost - 30).toNat))
        (u64 ((consumed + quotaCost - 30).toNat)))
      (ofNat64 1000)))

theorem normLoop_one (fuel : Nat) : ∀ (p : Nat) (e : Int), p < 2 ^ 53 →
    (normLoop fuel p 1 e).2.1 = 1 ∧ (normLoop fuel p 1 e).1 < 2 ^ 53 := by
  induction fuel with
  | zero => intro p e hp; simpa [normLoop] using hp
  | succ f ih =>
    intro p e hp
    rw [normLoop_succ]
    by_cases h1 : p < 2 ^ 52 * 1
    · rw [if_pos h1]; exact ih (2 * p) (e - 1) (by omega)
    · rw [if_neg h1, if_neg (by omega)]
      exact ⟨rfl, hp⟩

theorem roundPQ_nat_val (n : Nat) (hn : n < 2 ^ 53) : (roundPQ n 1 0).val = (n : ℚ) := by
  obtain ⟨hq1, hlt⟩ := normLoop_one (n + 1 + 120) n 0 hn
  have hval := normLoop_val (n + 1 + 120) n 1 0 (by norm_num)
  unfold roundPQ F64.val roundMant
  rw [hq1]
  simp only [Nat.div_one, Nat.mod_one]
  rw [if_pos (by omega : 2 * 0 < 1)]
  rw [hq1] at hval
  simpa using hval

theorem ofNat64_val (n : Nat) (hn : n < 2 ^ 53) : (ofNat64 n).val = (n : ℚ) :=
  roundPQ_nat_val n hn

theorem fle64_iff (a b : F64) : fle64 a b = true ↔ a.val ≤ b.val := by
  unfold fle64 F64.val
  by_cases h : a.e ≤ b.e
  · rw [if_pos h, decide_eq_true_eq]
    have he : ((b.e - a.e).toNat : ℤ) = b.e - a.e := Int.toNat_of_nonneg (by omega)
    have hsplit : (b.m : ℚ) * (2 : ℚ) ^ b.e =
        ((b.m : ℚ) * (2 : ℚ) ^ (b.e - a.e)) * (2 : ℚ) ^ a.e := by
      rw [mul_assoc, ← zpow_add₀ (by norm_num : (2:ℚ) ≠ 0)]
      ring_nf
    rw [hsplit, mul_le_mul_right (zpow_pos (by norm_num) _)]
    rw [← he, zpow_natCast]
    constructor
    · intro hh
      have hc : ((a.m : ℚ)) ≤ ((b.m * 2 ^ (b.e - a.e).toNat : ℕ) : ℚ) := by exact_mod_cast hh
      calc (a.m : ℚ) ≤ ((b.m * 2 ^ (b.e - a.e).toNat : ℕ) : ℚ) := hc
      _ = (b.m : ℚ) * (2 : ℚ) ^ (b.e - a.e).toNat := by push_cast; ring
    · intro hh
      have h2 : ((a.m : ℚ)) ≤ ((b.m * 2 ^ (b.e - a.e).toNat : ℕ) : ℚ) := by
        push_cast
        simpa using hh
      exact_mod_cast h2
  · rw [if_neg h, decide_eq_true_eq]
    have he : ((a.e - b.e).toNat : ℤ) = a.e - b.e := Int.toNat_of_nonneg (by omega)
    have hsplit : (a.m : ℚ) * (2 : ℚ) ^ a.e =
        ((a.m : ℚ) * (2 : ℚ) ^ (a.e - b.e)) * (2 : ℚ) ^ b.e := by
      rw [mul_assoc, ← zpow_add₀ (by norm_num : (2:ℚ) ≠ 0)]
      ring_nf
    rw [hsplit, mul_le_mul_right (zpow_pos (by norm_num) _)]
    rw [← he, zpow_natCast]
    constructor
    · intro hh
      have h2 : ((a.m * 2 ^ (a.e - b.e).toNat : ℕ) : ℚ) ≤ (b.m : ℚ) := by exact_mod_cast hh
      calc (a.m : ℚ) * (2 : ℚ) ^ (a.e - b.e).toNat
          = ((a.m * 2 ^ (a.e - b.e).toNat : ℕ) : ℚ) := by push_cast; ring
      _ ≤ (b.m : ℚ) := h2
    · intro hh
      have h2 : ((a.m * 2 ^ (a.e - b.e).toNat : ℕ) : ℚ) ≤ (b.m : ℚ) := by
        push_cast
        simpa using hh
      exact_mod_cast h2

theorem val_pos_of_ge {f : F64} {x : ℚ} (hx : 0 < x) (h : x ≤ f.val) : 0 < f.m := by
  rcases Nat.eq_zero_or_pos f.m with h0 | h1
  · exfalso
    have hv : f.val = 0 := by rw [F64.val, h0]; simp
    rw [hv] at h
    linarith
  · exact h1

/-- Once the reserve is exhausted (`d ≥ 60`), the clamp takes the 1 branch:
the rounded quotient `d / 60` is at least 1. -/
theorem u64_sat (d : Nat) (hd : 60 ≤ d) : u64 d = ofNat64 1 := by
  unfold u64
  have h1val : (ofNat64 1).val = 1 := by
    have h := ofNat64_val 1 (by norm_num)
    simpa using h
  have h60val : (ofNat64 60).val = 60 := by
    have h := ofNat64_val 60 (by norm_num)
    simpa using h
  have hdval : (60 : ℚ) ≤ (ofNat64 d).val := by
    by_cases hc : d < 2 ^ 53
    · rw [ofNat64_val d hc]; exact_mod_cast hd
    · have h64 : (2 : ℚ) ^ (6 : ℕ) ≤ ((d : ℚ) / 1) * (2 : ℚ) ^ (0 : ℤ) := by
        rw [zpow_zero, div_one, mul_one]
        calc (2 : ℚ) ^ (6 : ℕ) = 64 := by norm_num
        _ ≤ (d : ℚ) := by exact_mod_cast (by omega : 64 ≤ d)
      have h2 := roundPQ_ge_pow 6 d 1 0 (by omega) (by norm_num) h64
      calc (60 : ℚ) ≤ 2 ^ (6 : ℕ) := by norm_num
      _ ≤ (roundPQ d 1 0).val := h2
  have hm60 : 0 < (ofNat64 60).m :=
    val_pos_of_ge (by norm_num : (0:ℚ) < 60) (le_of_eq h60val.symm)
  have hmd : 0 < (ofNat64 d).m :=
    val_pos_of_ge (by norm_num : (0:ℚ) < 60) hdval
  have hsplit : (((ofNat64 d).m : ℚ) / ((ofNat64 60).m : ℚ)) *
      (2 : ℚ) ^ ((ofNat64 d).e - (ofNat64 60).e) =
        (ofNat64 d).val / (ofNat64 60).val := by
    rw [F64.val, F64.val, zpow_sub₀ (by norm_num : (2:ℚ) ≠ 0), div_mul_div_comm]
  have hVx : (2 : ℚ) ^ (0 : ℕ) ≤ (((ofNat64 d).m : ℚ) / ((ofNat64 60).m : ℚ)) *
      (2 : ℚ) ^ ((ofNat64 d).e - (ofNat64 60).e) := by
    rw [hsplit, h60val, pow_zero, le_div_iff₀ (by norm_num : (0:ℚ) < 60)]
    linarith
  have hxval : (1 : ℚ) ≤ (fdiv64 (ofNat64 d) (ofNat64 60)).val := by
    have h := roundPQ_ge_pow 0 (ofNat64 d).m (ofNat64 60).m
      ((ofNat64 d).e - (ofNat64 60).e) hmd hm60 hVx
    simpa [fdiv64] using h
  have hle : fle64 (ofNat64 1) (fdiv64 (ofNat64 d) (ofNat64 60)) = true := by
    rw [fle64_iff, h1val]
    exact hxval
  rw [fmin64, hle]
  simp

set_option maxRecDepth 10000 in
theorem calculateWait64_sat (w c : Int) (h : 90 ≤ w + c) : calculateWait64 w c = 1000 := by
  unfold calculateWait64
  rw [if_neg (by omega)]
  rw [u64_sat ((w + c - 30).toNat) (by omega)]
  decide

theorem calculateWait64_sum (w c : Int) : calculateWait64 w c = calculateWait64 0 (w + c) := by
  simp only [calculateWait64, zero_add]

theorem calculateWaitInt_sum (w c : Int) :
    calculateWaitInt w c = calculateWaitInt 0 (w + c) := by
  simp only [calculateWaitInt, zero_add]

set_option maxRecDepth 10000 in
theorem calculateWait64_table : ∀ k : Fin 59,
    calculateWait64 0 (((31 + (k : Nat) : Nat) : Int)) =
      (if ((31 + (k : Nat) : Nat) : Int) = 51 ∨ ((31 + (k : Nat) : Nat) : Int) = 81
        then -1 else 0) +
        calculateWaitInt 0 (((31 + (k : Nat) : Nat) : Int)) := by
  decide

theorem calculateWait64_mid (w c : Int) (h1 : 30 < w + c) (h2 : w + c < 90) :
    calculateWait64 w c =
      (if w + c = 51 ∨ w + c = 81 then -1 else 0) + calculateWaitInt w c := by
  have hsum := calculateWait64_sum w c
  have hsumI := calculateWaitInt_sum w c
  obtain ⟨k, hklt, hak⟩ : ∃ k : Nat, k < 59 ∧ w + c = ((31 + k : Nat) : Int) :=
    ⟨(w + c - 31).toNat, by omega, by push_cast; omega⟩
  have htab := calculateWait64_table ⟨k, hklt⟩
  rw [hsum, hsumI, hak]
  exact htab

/-- C2 counterexample: the claim's formula demands `round(122.5) = 123` at
`w + c = 51` (and `round(722.5) = 723` at `w + c = 81`), but the program's
binary64 evaluation produces `122.49999999999999` (resp. `722.4999999999999`)
and `Math.round` returns 122 (resp. 722). -/
theorem throttle_wait_tie_counterexample :
    calculateWait64 51 0 = 122 ∧
    min 1000 (jsRound ((min 1 (((51 - 30 : Int) : ℚ) / 60)) ^ 2 * 1000)) = 123 ∧
    calculateWait64 81 0 = 722 ∧
    min 1000 (jsRound ((min 1 (((81 - 30 : Int) : ℚ) / 60)) ^ 2 * 1000)) = 723 := by
  refine ⟨?_, ?_, ?_, ?_⟩
  · set_option maxRecDepth 10000 in decide
  · rw [show ((51 - 30 : Int) : ℚ) = 21 by norm_num]
    rw [show min (1:ℚ) (21 / 60) = 21 / 60 by rw [min_eq_right]; norm_num]
    norm_num [jsRound]
  · set_option maxRecDepth 10000 in decide
  · rw [show ((81 - 30 : Int) : ℚ) = 51 by norm_num]
    rw [show min (1:ℚ) (51 / 60) = 51 / 60 by rw [min_eq_right]; norm_num]
    norm_num [jsRound]

/-- C2 amended: in the program's binary64 arithmetic the wait is 0 when
`w + c ≤ 30` and exactly 1000 ms when `w + c ≥ 90`; in between it equals the
claim's exact-rational formula
`min(maxWaitMs, round((min(1, (w + c - 30) / 60))² × maxWaitMs))` except at
the two representation ties `w + c ∈ {51, 81}`, where it is one less; at
utilization 0.5 (`w + c = 60`) the wait is exactly 250 ms. -/
theorem throttle_wait_binary64 :
    (∀ w c : Int, w + c ≤ 30 → calculateWait64 w c = 0) ∧
    (∀ w c : Int, 90 ≤ w + c → calculateWait64 w c = 1000) ∧
    (∀ w c : Int, 30 < w + c → w + c < 90 →
      calculateWait64 w c =
        (if w + c = 51 ∨ w + c = 81 then -1 else 0) +
          min 1000 (jsRound ((min 1 (((w + c - 30 : Int) : ℚ) / 60)) ^ 2 * 1000))) ∧
    (∀ w c : Int, w + c = 60 → calculateWait64 w c = 250) := by
  refine ⟨?_, ?_, ?_, ?_⟩
  · intro w c h
    unfold calculateWait64
    rw [if_pos h]
  · intro w c h
    exact calculateWait64_sat w c h
  · intro w c h1 h2
    rw [calculateWait64_mid w c h1 h2]
    congr 1
    rw [← calculateWait_eq_int w c]
    exact (throttle_wait_formula w c).2.1 h1
  · intro w c h
    rw [calculateWait64_mid w c (by omega) (by omega), if_neg (by omega)]
    have hv : calculateWaitInt w c = calculateWaitInt 0 60 := by
      rw [calculateWaitInt_sum, h]
    rw [hv]
    decide

theorem throttle_wait_binary64_witness :
    calculateWait64 10 5 = 0 ∧
    calculateWait64 50 45 = 1000 ∧
    calculateWait64 0 40 =
      (if (0 : Int) + 40 = 51 ∨ (0 : Int) + 40 = 81 then -1 else 0) +
        min 1000 (jsRound ((min 1 (((0 + 40 - 30 : Int) : ℚ) / 60)) ^ 2 * 1000)) ∧
    calculateWait64 30 30 = 250 :=
  ⟨throttle_wait_binary64.1 10 5 (by decide),
   throttle_wait_binary64.2.1 50 45 (by decide),
   throttle_wait_binary64.2.2.1 0 40 (by decide) (by decide),
   throttle_wait_binary64.2.2.2 30 30 (by decide)⟩

/-! ### The full throttle queue as an event-loop model

Back-to-back `execute` submissions are modelled with JavaScript's
run-to-completion microtask semantics, which the promise chain of
`acquireSlot` relies on:

* Submissions happen synchronously: each caller `i` runs `acquireSlot` up to
  `await previousMutex`.  Caller 0 awaits the already-resolved initial mutex,
  so its resumption is enqueued at once; caller `i+1` registers as the sole
  waiter of caller `i`'s slot promise.
* When a promise is fulfilled, its waiters' resumptions are appended to the
  microtask queue; the queue runs FIFO.  In `acquireSlot`, `resolveSlot!()`
  runs *before* the function returns, so the fulfilment of the slot promise
  (waking caller `i+1` at its decision) is enqueued *before* the fulfilment
  of `acquireSlot`'s own promise (waking caller `i`'s `execute` body at
  `tracker.record`).
* `await sleep(waitTime)` parks the caller on a timer; timers fire only once
  the microtask queue is empty, earliest wake time first (insertion order
  among equal wakes). -/

/-- Where a suspended caller resumes. -/
inductive TaskPhase where
  /-- after `await previousMutex`: run `calculateWait`, then sleep or release -/
  | afterPrev
  /-- after `await sleep(waitTime)`: release the slot -/
  | afterSleep
  /-- after `await this.acquireSlot(...)` in `execute`: record and invoke -/
  | afterAcquire
deriving DecidableEq

structure SchedState where
  timeMs : Int
  tracker : QuotaMap
  micro : List (Nat × TaskPhase)
  timers : List (Int × Nat)
  log : List ThrottleEvent
deriving DecidableEq

/-- `resolveSlot!()` followed by `acquireSlot`'s return: fulfil the slot
promise (enqueueing caller `i+1`'s decision, if any) and then `acquireSlot`'s
promise (enqueueing caller `i`'s `execute` continuation) — in that order. -/
def releaseSlot (n i : Nat) (s : SchedState) : SchedState :=
  { s with
    micro := s.micro ++
      (if i + 1 < n then [(i + 1, TaskPhase.afterPrev)] else []) ++
      [(i, TaskPhase.afterAcquire)]
    log := s.log ++ [.slotReleased i] }

/-- Run one resumed task to its next suspension point (or to completion). -/
def runTask (costs : List Int) (i : Nat) (ph : TaskPhase) (s : SchedState) :
    SchedState :=
  let n := costs.length
  let cost := costs.getD i 0
  match ph with
  | .afterPrev =>
    let now := s.timeMs / 1000
    let c := QuotaTracker.countLast60Seconds s.tracker now
    let wait := calculateWaitInt c.1 cost
    let s1 := { s with tracker := c.2, log := s.log ++ [.decided i c.1 wait] }
    if 0 < wait then
      { s1 with timers := s1.timers ++ [(s1.timeMs + wait, i)] }
    else
      releaseSlot n i s1
  | .afterSleep => releaseSlot n i s
  | .afterAcquire =>
    let now := s.timeMs / 1000
    { s with
      tracker := QuotaTracker.record s.tracker now cost
      log := s.log ++ [.recorded i cost, .invoked i] }

/-- Remove the timer with the earliest wake time (first among ties). -/
def pickTimer : List (Int × Nat) → Option ((Int × Nat) × List (Int × Nat))
  | [] => none
  | t :: rest =>
    match pickTimer rest with
    | none => some (t, [])
    | some (u, rest2) => if t.1 ≤ u.1 then some (t, rest) else some (u, t :: rest2)

/-- One scheduler step: the next microtask, else the earliest timer. -/
def schedStep (costs : List Int) (s : SchedState) : Option SchedState :=
  match s.micro with
  | (i, ph) :: ms => some (runTask costs i ph { s with micro := ms })
  | [] =>
    match pickTimer s.timers with
    | none => none
    | some ((wake, i), rest) =>
      some (runTask costs i .afterSleep { s with timeMs := wake, timers := rest })

def schedRun (costs : List Int) : Nat → SchedState → SchedState
  | 0, s => s
  | fuel + 1, s =>
    match schedStep costs s with
    | none => s
    | some s2 => schedRun costs fuel s2

/-- All callers submit back-to-back at time 0: caller 0's decision is already
enqueued, everyone else waits on the predecessor's slot promise. -/
def initState (costs : List Int) : SchedState :=
  { timeMs := 0
    tracker := []
    micro := if costs.length = 0 then [] else [(0, TaskPhase.afterPrev)]
    timers := []
    log := [] }

/-- The event log of back-to-back `execute` calls with the given costs
(each caller needs at most 3 task resumptions, so the fuel suffices). -/
def throttleRun (costs : List Int) : List ThrottleEvent :=
  (schedRun costs (4 * costs.length) (initState costs)).log

/-- The `countLast60Seconds()` value caller `i`'s admission decision read. -/
def decisionWindow (log : List ThrottleEvent) (i : Nat) : Option Int :=
  log.findSome? (fun ev =>
    match ev with
    | .decided j w _ => if j = i then some w else none
    | _ => none)

/-- C1, failing-input evaluation: two back-to-back `execute` calls with costs
31 and 1 on a fresh queue.  Decisions are made in FIFO order (`decided 0`
before `decided 1`), but the second caller's window computation reads 0, not
31: `resolveSlot()` runs before `execute` resumes to `tracker.record(31)`, so
the next decision's resumption is enqueued ahead of the record.  Had the
first reservation been visible, the second decision would have waited
`calculateWait 31 1 = 1` ms instead of `calculateWait 0 1 = 0`. -/
theorem throttle_stale_window_bug :
    throttleRun [31, 1] =
      [.decided 0 0 0, .slotReleased 0, .decided 1 0 0, .slotReleased 1,
        .recorded 0 31, .invoked 0, .recorded 1 1, .invoked 1] ∧
    decisionWindow (throttleRun [31, 1]) 1 = some 0 ∧
    some (0 : Int) ≠ some (31 : Int) ∧
    calculateWait 0 1 = 0 ∧ calculateWait 31 1 = 1 := by
  refine ⟨by decide, by decide, by decide, ?_, ?_⟩
  · rw [calculateWait_eq_int]; decide
  · rw [calculateWait_eq_int]; decide

end YPE
